import Mathlib

/-!
# sos: storage node (`blob-server`) and routing proxy (`sos-server`)

A shallow embedding of the two Go programs `blob-server/main.go` and
`sos-server/main.go`, followed by theorems about their request handlers.

Conventions of the embedding

* A Go `string` / `[]byte` is a list of bytes; a byte is a natural number
  below 256 (`Bytes`).  String constants of the source are written with
  `ascii`.
* An `http.ResponseWriter` is the record `ResponseWriter`: the status line
  that has been committed (if any) and the body bytes written so far.
* Calls that leave the process (the storage backend, outbound HTTP) are
  recorded in a trace that the handler returns next to its response.
* Go standard-library routines the handlers call (`fmt`, `regexp`,
  `path/filepath`, `crypto/sha1`, `net/http`, `ioutil`) are modelled by
  definitions named after them, following the library's behaviour.
-/

set_option maxRecDepth 100000

namespace Sos

/-! ## Bytes and string constants -/

/-- A Go `string` or `[]byte`: a sequence of bytes (naturals below 256). -/
abbrev Bytes := List Nat

/-- The bytes of an ASCII string constant of the source. -/
def ascii (s : String) : Bytes := s.toList.map Char.toNat

/-- Well-formedness of a byte sequence: every element is a byte. -/
def IsBytes (b : Bytes) : Prop := ∀ x ∈ b, x < 256

instance (b : Bytes) : Decidable (IsBytes b) := by
  unfold IsBytes
  infer_instance

/-! ## `fmt`: formatting with a format string and no operands

`fmt.Fprintf(w, format)` called with a format string and no further
arguments runs `doPrintf(format, nil)`.  The definitions below follow that
routine for an empty operand list: literal text is copied up to the next
`%`; after a `%` the flags, an optional `[n]` argument index, width and
precision are consumed; then the verb is read and, there being no operand,
an error marker is emitted in its place. -/

/-- The byte `%`. -/
def pct : Nat := 37

/-- Marker `%!(NOVERB)`: the format ends inside a directive. -/
def noVerbString : Bytes := ascii "%!(NOVERB)"

/-- Marker `%!(BADWIDTH)`: a `*` width without an integer operand. -/
def badWidthString : Bytes := ascii "%!(BADWIDTH)"

/-- Marker `%!(BADPREC)`: a `*` precision without an integer operand. -/
def badPrecString : Bytes := ascii "%!(BADPREC)"

/-- The UTF-8 encoding of U+FFFD, which `utf8.RuneError` is written as. -/
def runeError : Bytes := [0xEF, 0xBF, 0xBD]

/-- Function `tooLarge` of `fmt`: the number is beyond the range of a width. -/
def tooLarge (x : Nat) : Bool := decide (1000000 < x)

/-- Function `parsenum` of `fmt` on the segment `s[start:end]`, given as a list:
returns the number read, whether a digit was read, and the unread rest of the
segment.  On overflow the whole segment is skipped (`newi = end`). -/
def parsenumLoop : Bytes → Nat → Bool → Nat × Bool × Bytes
  | [], num, isnum => (num, isnum, [])
  | c :: rest, num, isnum =>
    if 48 ≤ c ∧ c ≤ 57 then
      if tooLarge num then (0, false, [])
      else parsenumLoop rest (num * 10 + (c - 48)) true
    else (num, isnum, c :: rest)

/-- Function `parsenum` of `fmt`. -/
def parsenum (seg : Bytes) : Nat × Bool × Bytes := parsenumLoop seg 0 false

/-- Function `parseArgNumber` of `fmt`, called on a format that starts with `[`:
returns the number of bytes to skip and whether a well-formed `[n]` was read.
(The index itself is never usable, the operand list being empty.) -/
def parseArgNumber (format : Bytes) : Nat × Bool :=
  if format.length < 3 then (1, false)
  else
    let inner := format.drop 1
    let seg := inner.takeWhile (fun c => c ≠ 93)
    if seg.length < inner.length then
      -- the closing bracket is at index `seg.length + 1` of `format`
      match parsenum seg with
      | (_, ok, unread) =>
        if !ok || unread ≠ [] then (seg.length + 2, false) else (seg.length + 2, true)
    else (1, false)

/-- Method `argNumber` of `fmt` with no operands: the unread format, `found`, and
whether `goodArgNum` was cleared (always so when a `[` is met, no index being
in range). -/
def argNumber (format : Bytes) : Bytes × Bool × Bool :=
  match format with
  | 91 :: _ =>
    match parseArgNumber format with
    | (wid, ok) => (format.drop wid, ok, true)
  | _ => (format, false, false)

/-- The flag loop of `doPrintf`: skips `#`, `0`, `+`, `-` and space. -/
def skipFlags : Bytes → Bytes
  | [] => []
  | c :: rest =>
    if c = 35 ∨ c = 48 ∨ c = 43 ∨ c = 45 ∨ c = 32 then skipFlags rest else c :: rest

/-- A continuation byte of UTF-8. -/
def contByte (b : Nat) : Bool := decide (0x80 ≤ b ∧ b ≤ 0xBF)

/-- The verb at the head of the format: `utf8.DecodeRuneInString` followed by
`writeRune`.  Returns the bytes the verb is written as and the number of
bytes it occupies in the format (an invalid encoding is one byte wide and is
written as U+FFFD). -/
def decodeVerb : Bytes → Bytes × Nat
  | [] => (runeError, 0)
  | b0 :: rest =>
    if b0 < 0x80 then ([b0], 1)
    else if 0xC2 ≤ b0 ∧ b0 ≤ 0xDF then
      match rest with
      | b1 :: _ => if contByte b1 then ([b0, b1], 2) else (runeError, 1)
      | _ => (runeError, 1)
    else if 0xE0 ≤ b0 ∧ b0 ≤ 0xEF then
      match rest with
      | b1 :: b2 :: _ =>
        let lo := if b0 = 0xE0 then 0xA0 else 0x80
        let hi := if b0 = 0xED then 0x9F else 0xBF
        if lo ≤ b1 ∧ b1 ≤ hi ∧ contByte b2 = true then ([b0, b1, b2], 3) else (runeError, 1)
      | _ => (runeError, 1)
    else if 0xF0 ≤ b0 ∧ b0 ≤ 0xF4 then
      match rest with
      | b1 :: b2 :: b3 :: _ =>
        let lo := if b0 = 0xF0 then 0x90 else 0x80
        let hi := if b0 = 0xF4 then 0x8F else 0xBF
        if lo ≤ b1 ∧ b1 ≤ hi ∧ contByte b2 = true ∧ contByte b3 = true then
          ([b0, b1, b2, b3], 4)
        else (runeError, 1)
      | _ => (runeError, 1)
    else (runeError, 1)

/-- The width part of a directive: unread format, bytes emitted, `afterIndex`,
and whether `goodArgNum` has been cleared. -/
def widthStep (f : Bytes) (afterIndex bad : Bool) : Bytes × Bytes × Bool × Bool :=
  match f with
  | 42 :: r => (r, badWidthString, false, bad)
  | _ =>
    match parsenum f with
    | (_, widPresent, r) => (r, [], afterIndex, bad || (afterIndex && widPresent))

/-- The precision part of a directive (same result shape as `widthStep`).  The
guard is `i+1 < end && format[i] == '.'`: a `.` is the start of a precision
only when a byte follows it; a `.` that ends the format is left in place
and is read as the verb. -/
def precStep (f : Bytes) (afterIndex bad : Bool) : Bytes × Bytes × Bool × Bool :=
  match f with
  | 46 :: c :: r0 =>
    match argNumber (c :: r0) with
    | (r1, ai, b) =>
      match r1 with
      | 42 :: r2 => (r2, badPrecString, false, bad || afterIndex || b)
      | _ =>
        match parsenum r1 with
        | (_, _, r2) => (r2, [], ai, bad || afterIndex || b)
  | _ => (f, [], afterIndex, bad)

/-- One directive of `doPrintf` with no operands, started just after a `%`:
the bytes emitted and the unread format (`none` when the format loop is
left because the format ended before a verb). -/
def verbStep (afterPct : Bytes) : Bytes × Option Bytes :=
  match argNumber (skipFlags afterPct) with
  | (f1, afterIndex1, bad1) =>
    match widthStep f1 afterIndex1 bad1 with
    | (f2, out2, afterIndex2, bad2) =>
      match precStep f2 afterIndex2 bad2 with
      | (f3, out3, afterIndex3, bad3) =>
        match (if afterIndex3 then (f3, false, false) else argNumber f3) with
        | (f4, _, b4) =>
          match f4 with
          | [] => (out2 ++ out3 ++ noVerbString, none)
          | c :: _ =>
            match decodeVerb f4 with
            | (verb, size) =>
              let rest := f4.drop size
              if c = pct then (out2 ++ out3 ++ [pct], some rest)
              else if bad3 || b4 then
                (out2 ++ out3 ++ ascii "%!" ++ verb ++ ascii "(BADINDEX)", some rest)
              else
                (out2 ++ out3 ++ ascii "%!" ++ verb ++ ascii "(MISSING)", some rest)

/-- The format loop of `doPrintf` with no operands; `fuel` bounds the number
of directives and `format.length + 1` always suffices. -/
def doPrintf : Nat → Bytes → Bytes
  | 0, _ => []
  | fuel + 1, format =>
    let lit := format.takeWhile (fun c => c ≠ pct)
    match format.dropWhile (fun c => c ≠ pct) with
    | [] => lit
    | _ :: afterPct =>
      match verbStep afterPct with
      | (out, none) => lit ++ out
      | (out, some rest) => lit ++ out ++ doPrintf fuel rest

/-- What `fmt.Sprintf(format)` returns when called without operands. -/
def Sprintf0 (format : Bytes) : Bytes := doPrintf (format.length + 1) format

/-! ## `net/http`: the response writer -/

/-- An `http.ResponseWriter`: whether the status line has been committed, the
committed status, and the body written so far. -/
structure ResponseWriter where
  wroteHeader : Bool
  status : Nat
  body : Bytes
  deriving DecidableEq, Repr

/-- A fresh response, as handed to a handler. -/
def ResponseWriter.new : ResponseWriter := { wroteHeader := false, status := 0, body := [] }

/-- Method `WriteHeader(code)`: commits the status unless one is already committed. -/
def ResponseWriter.WriteHeader (w : ResponseWriter) (code : Nat) : ResponseWriter :=
  if w.wroteHeader then w else { w with wroteHeader := true, status := code }

/-- Method `Write(p)`: commits status 200 if none is committed, then appends `p`. -/
def ResponseWriter.Write (w : ResponseWriter) (p : Bytes) : ResponseWriter :=
  let w1 := if w.wroteHeader then w else w.WriteHeader 200
  { w1 with body := w1.body ++ p }

/-- The server's completion of a response after the handler has returned: a
handler that never wrote gets status 200 and an empty body. -/
def ResponseWriter.finish (w : ResponseWriter) : ResponseWriter :=
  if w.wroteHeader then w else w.WriteHeader 200

/-- Call `fmt.Fprintf(res, format)` with no operands. -/
def Fprintf (res : ResponseWriter) (format : Bytes) : ResponseWriter :=
  res.Write (Sprintf0 format)

/-- Call `http.Error(res, msg, code)`: commits `code`, writes `msg` and a newline. -/
def httpError (res : ResponseWriter) (msg : Bytes) (code : Nat) : ResponseWriter :=
  (res.WriteHeader code).Write (msg ++ [10])

/-- Call `http.NotFound(res, req)`. -/
def httpNotFound (res : ResponseWriter) : ResponseWriter :=
  httpError res (ascii "404 page not found") 404

/-- Constant `http.StatusInternalServerError`. -/
def StatusInternalServerError : Nat := 500

/-- Constant `http.StatusNotFound`. -/
def StatusNotFound : Nat := 404

/-- Constant `http.StatusOK`. -/
def StatusOK : Nat := 200

/-! ## `regexp`: the fragment used by the id pattern

The pattern `^([a-z0-9]+)$` is compiled without flags, so `^` and `$` are
the begin-of-text and end-of-text assertions.  A class made of ASCII ranges
only matches one-byte runes, so matching can be done byte by byte. -/

/-- Abstract syntax of the regular expressions needed for the id pattern. -/
inductive Regex where
  | beginText : Regex
  | endText : Regex
  | cls (ranges : List (Nat × Nat)) : Regex
  | plus (r : Regex) : Regex
  | group (r : Regex) : Regex
  | cat (r₁ r₂ : Regex) : Regex
  deriving Repr

/-- Membership of a byte in a character class given by inclusive ranges. -/
def inRanges (ranges : List (Nat × Nat)) (c : Nat) : Bool :=
  ranges.any fun r => decide (r.1 ≤ c ∧ c ≤ r.2)

/-- End positions of one-or-more repetitions of a sub-match `f`, from position
`i`.  A repetition that consumed nothing is not repeated; `fuel` bounds the
number of repetitions. -/
def plusEnds (f : Nat → List Nat) : Nat → Nat → List Nat
  | 0, _ => []
  | fuel + 1, i => (f i).flatMap fun j => j :: (if i < j then plusEnds f fuel j else [])

/-- All positions at which a match of `r` that starts at position `i` of the
text `s` can end. -/
def Regex.ends (s : Bytes) : Regex → Nat → List Nat
  | .beginText, i => if i = 0 then [i] else []
  | .endText, i => if i = s.length then [i] else []
  | .cls ranges, i =>
    match s.get? i with
    | some c => if inRanges ranges c then [i + 1] else []
    | none => []
  | .plus r, i => plusEnds (fun j => Regex.ends s r j) (s.length + 1) i
  | .group r, i => Regex.ends s r i
  | .cat r₁ r₂, i => (Regex.ends s r₁ i).flatMap fun j => Regex.ends s r₂ j

/-- Method `MatchString`: the text contains a match of the expression, starting
at any position. -/
def Regex.MatchString (re : Regex) (s : Bytes) : Bool :=
  (List.range (s.length + 1)).any fun i => !(re.ends s i).isEmpty

/-- The expression `regexp.Compile("^([a-z0-9]+)$")` of both handlers. -/
def idPattern : Regex :=
  .cat .beginText (.cat (.group (.plus (.cls [(97, 122), (48, 57)]))) .endText)

/-! ## `blob-server`: the storage node -/

namespace BlobServer

/-- A call made on the storage backend `STORAGE`. -/
inductive StorageCall where
  | get (id : Bytes) : StorageCall
  | store (id content : Bytes) : StorageCall
  deriving DecidableEq, Repr

/-- The id a storage call is made with. -/
def StorageCall.id : StorageCall → Bytes
  | .get id => id
  | .store id _ => id

/-- The interface `StorageHandler` as far as the handlers use it, over a backend
state `σ`: `Get` returns the stored bytes or `none` (a nil pointer), `Store`
reports success and yields the new backend state. -/
structure StorageHandler (σ : Type) where
  Get : σ → Bytes → Option Bytes
  Store : σ → Bytes → Bytes → Bool × σ

/-- What a storage-node handler leaves behind: the response, the calls it made
on the backend, and the backend state. -/
structure NodeResult (σ : Type) where
  res : ResponseWriter
  calls : List StorageCall
  store : σ

/-- The deferred function of the handlers:
`if nil != err { http.Error(res, err.Error(), status) }`. -/
def deferred (res : ResponseWriter) (err : Option Bytes) (status : Nat) : ResponseWriter :=
  match err with
  | some e => httpError res e status
  | none => res

/-- The message written for an id that does not match the pattern. -/
def alnumOnly : Bytes := ascii "Alphanumeric IDs only."

/-- Handler `GetHandler` of `blob-server` (GET /blob/{id}).  The locals `status`
and `err` start at their zero values; `err` is never assigned. -/
def GetHandler {σ : Type} (STORAGE : StorageHandler σ) (st : σ) (res : ResponseWriter)
    (id : Bytes) : NodeResult σ :=
  let status0 : Nat := 0
  let err : Option Bytes := none
  if !(idPattern.MatchString id) then
    let status := StatusInternalServerError
    let res1 := Fprintf res alnumOnly
    { res := deferred res1 err status, calls := [], store := st }
  else
    match STORAGE.Get st id with
    | none =>
      { res := deferred (httpNotFound res) err status0, calls := [.get id], store := st }
    | some data =>
      { res := deferred (Fprintf res data) err status0, calls := [.get id], store := st }

/-- Decimal rendering of a natural number (verb `%d`), most significant digit
first; `fuel` bounds the number of digits. -/
def decimalLoop : Nat → Nat → Bytes → Bytes
  | 0, _, acc => acc
  | fuel + 1, n, acc =>
    if n / 10 = 0 then (48 + n % 10) :: acc
    else decimalLoop fuel (n / 10) ((48 + n % 10) :: acc)

/-- Decimal rendering of a natural number. -/
def decimal (n : Nat) : Bytes := decimalLoop (n + 1) n []

/-- The call `fmt.Sprintf("{\"id\":\"%s\",\"status\":\"OK\",\"size\":%d}", id, size)`:
the literal parts of the format with `id` in place of `%s` and the decimal
rendering of `size` in place of `%d`. -/
def uploadResult (id : Bytes) (size : Nat) : Bytes :=
  ascii "\x7b\"id\":\"" ++ id ++ ascii "\",\"status\":\"OK\",\"size\":" ++ decimal size
    ++ ascii "\x7d"

/-- Handler `UploadHandler` of `blob-server` (POST /blob/{id}).  `body` is what
`ioutil.ReadAll(req.Body)` returns: the content read and the error, if any. -/
def UploadHandler {σ : Type} (STORAGE : StorageHandler σ) (st : σ) (res : ResponseWriter)
    (id : Bytes) (body : Bytes × Option Bytes) : NodeResult σ :=
  let status0 : Nat := 0
  let err0 : Option Bytes := none
  if !(idPattern.MatchString id) then
    let res1 := Fprintf res alnumOnly
    let status := StatusInternalServerError
    { res := deferred res1 err0 status, calls := [], store := st }
  else
    match body with
    | (content, err) =>
      if err.isSome then
        let status := StatusInternalServerError
        { res := deferred res err status, calls := [], store := st }
      else
        match STORAGE.Store st id content with
        | (result, st1) =>
          if result = false then
            let status := StatusInternalServerError
            { res := deferred res err status, calls := [.store id content], store := st1 }
          else
            let out := uploadResult id content.length
            { res := deferred (Fprintf res out) err status0,
              calls := [.store id content], store := st1 }

/-- The response a client of the storage node receives for GET /blob/{id}: the
handler runs on a fresh response, which the server then completes. -/
def serveGet {σ : Type} (STORAGE : StorageHandler σ) (st : σ) (id : Bytes) : ResponseWriter :=
  (GetHandler STORAGE st ResponseWriter.new id).res.finish

/-- The response a client of the storage node receives for POST /blob/{id}. -/
def serveUpload {σ : Type} (STORAGE : StorageHandler σ) (st : σ) (id : Bytes)
    (body : Bytes × Option Bytes) : ResponseWriter :=
  (UploadHandler STORAGE st ResponseWriter.new id body).res.finish

/-- A backend for examples: an association list from ids to contents, whose
`Store` fails when `full` is set. -/
def memStorage (full : Bool) : StorageHandler (List (Bytes × Bytes)) where
  Get := fun st id => (st.find? fun e => e.1 == id).map fun e => e.2
  Store := fun st id content => if full then (false, st) else (true, (id, content) :: st)

end BlobServer

/-! ## `crypto/sha1` and the `%x` verb -/

/-- Reduction of a number to 32 bits. -/
def mask32 (x : Nat) : Nat := x % 4294967296

/-- Rotation of a 32-bit word to the left by `n` bits. -/
def rotl (n x : Nat) : Nat := mask32 ((x <<< n) ||| (x >>> (32 - n)))

/-- The `n` low-order bytes of `x`, most significant first. -/
def beBytes : Nat → Nat → Bytes
  | 0, _ => []
  | n + 1, x => (x / 256 ^ n) % 256 :: beBytes n x

/-- SHA-1 padding: a `0x80` byte, zero bytes up to 56 modulo 64, then the bit
length of the message as a 64-bit big-endian number. -/
def sha1Pad (msg : Bytes) : Bytes :=
  let len := msg.length
  let padLen := if len % 64 < 56 then 56 - len % 64 else 64 + 56 - len % 64
  msg ++ 0x80 :: List.replicate (padLen - 1) 0 ++ beBytes 8 ((len * 8) % 2 ^ 64)

/-- The 32-bit big-endian word made of four bytes. -/
def beWord (b0 b1 b2 b3 : Nat) : Nat :=
  ((b0 % 256) * 256 + b1 % 256) * 65536 + (b2 % 256) * 256 + b3 % 256

/-- The first `n` big-endian words of a byte sequence. -/
def wordsOf : Nat → Bytes → List Nat
  | 0, _ => []
  | n + 1, b0 :: b1 :: b2 :: b3 :: rest => beWord b0 b1 b2 b3 :: wordsOf n rest
  | _ + 1, _ => []

/-- Extension of the message schedule by `n` words; the schedule is kept with
its most recent word first, so `w[t-3]`, `w[t-8]`, `w[t-14]` and `w[t-16]`
are at positions 2, 7, 13 and 15. -/
def expand : Nat → List Nat → List Nat
  | 0, w => w
  | n + 1, w =>
    expand n (rotl 1 (w.getD 2 0 ^^^ w.getD 7 0 ^^^ w.getD 13 0 ^^^ w.getD 15 0) :: w)

/-- The five chaining words of SHA-1. -/
structure Digest where
  h0 : Nat
  h1 : Nat
  h2 : Nat
  h3 : Nat
  h4 : Nat
  deriving DecidableEq, Repr

/-- Round `t` of the compression function with schedule word `w`. -/
def round (t : Nat) (s : Digest) (w : Nat) : Digest :=
  let f :=
    if t < 20 then (s.h1 &&& s.h2) ||| ((s.h1 ^^^ 0xFFFFFFFF) &&& s.h3)
    else if t < 40 then s.h1 ^^^ s.h2 ^^^ s.h3
    else if t < 60 then ((s.h1 ||| s.h2) &&& s.h3) ||| (s.h1 &&& s.h2)
    else s.h1 ^^^ s.h2 ^^^ s.h3
  let k :=
    if t < 20 then 0x5A827999 else if t < 40 then 0x6ED9EBA1
    else if t < 60 then 0x8F1BBCDC else 0xCA62C1D6
  { h0 := mask32 (rotl 5 s.h0 + f + s.h4 + w + k), h1 := s.h0, h2 := rotl 30 s.h1,
    h3 := s.h2, h4 := s.h3 }

/-- The rounds of one block, from round `t` on, over the remaining schedule. -/
def rounds : Nat → List Nat → Digest → Digest
  | _, [], s => s
  | t, w :: ws, s => rounds (t + 1) ws (round t s w)

/-- The compression of one 64-byte block into the chaining value. -/
def block (h : Digest) (chunk : Bytes) : Digest :=
  let w := (expand 64 (wordsOf 16 chunk).reverse).reverse
  let s := rounds 0 w h
  { h0 := mask32 (h.h0 + s.h0), h1 := mask32 (h.h1 + s.h1), h2 := mask32 (h.h2 + s.h2),
    h3 := mask32 (h.h3 + s.h3), h4 := mask32 (h.h4 + s.h4) }

/-- The compression of `n` consecutive blocks. -/
def blocks : Nat → Digest → Bytes → Digest
  | 0, h, _ => h
  | n + 1, h, p => blocks n (block h (p.take 64)) (p.drop 64)

/-- The initial chaining value of SHA-1. -/
def sha1Init : Digest :=
  { h0 := 0x67452301, h1 := 0xEFCDAB89, h2 := 0x98BADCFE, h3 := 0x10325476, h4 := 0xC3D2E1F0 }

/-- The 20-byte SHA-1 digest: `hasher.Write(b); hasher.Sum(nil)` on a new hasher. -/
def sha1Sum (msg : Bytes) : Bytes :=
  let p := sha1Pad msg
  let h := blocks (p.length / 64) sha1Init p
  beBytes 4 h.h0 ++ beBytes 4 h.h1 ++ beBytes 4 h.h2 ++ beBytes 4 h.h3 ++ beBytes 4 h.h4

/-- One lower-case hexadecimal digit. -/
def hexDigit (d : Nat) : Nat := if d < 10 then 48 + d else 87 + d

/-- The verb `%x` on a byte slice: two lower-case hexadecimal digits per byte. -/
def hexBytes : Bytes → Bytes
  | [] => []
  | b :: rest => hexDigit (b / 16 % 16) :: hexDigit (b % 16) :: hexBytes rest

/-! ## `path/filepath` -/

/-- The loop of `filepath.Ext` over the path read from its end: the length of
the extension, `n` bytes having been passed.  The scan stops at a path
separator `/` and returns at the first `.`. -/
def extLoop : Bytes → Nat → Nat
  | [], _ => 0
  | c :: rest, n => if c = 47 then 0 else if c = 46 then n + 1 else extLoop rest (n + 1)

/-- Function `filepath.Ext`: the suffix of the path that starts at the last `.` of
its last element, or the empty string. -/
def filepathExt (path : Bytes) : Bytes :=
  path.drop (path.length - extLoop path.reverse 0)

/-! ## `sos-server`: the routing proxy -/

namespace SosServer

/-- The method of an outbound request. -/
inductive Method where
  | GET : Method
  | POST : Method
  deriving DecidableEq, Repr

/-- An outbound request made with `http.Get` or `http.Post`. -/
structure Request where
  method : Method
  url : Bytes
  body : Bytes
  deriving DecidableEq, Repr

/-- A completed exchange with a node: its status and the bytes of its body. -/
structure Response where
  status : Nat
  body : Bytes
  deriving DecidableEq, Repr

/-- The network as the proxy sees it: the outcome of the `n`-th outbound call of
a handler run, `none` standing for a transport error (`err != nil`). -/
abbrev Transport := Nat → Request → Option Response

/-- Call `ioutil.ReadAll(r.Body)`, its error dropped: the slice returned is never
nil, also for an empty body. -/
def ioutilReadAll (r : Response) : Option Bytes := some r.body

/-- What a proxy handler leaves behind: the response and the outbound requests
it made, in order. -/
structure ProxyResult where
  res : ResponseWriter
  sent : List Request
  deriving DecidableEq, Repr

/-- The call `fmt.Sprintf("%s%s%x", s, "/blob/", hash)`. -/
def uploadURL (s hash : Bytes) : Bytes := s ++ ascii "/blob/" ++ hexBytes hash

/-- The loop `for _, s := range SERVERS` of `UploadHandler` with the code after
it; `n` counts the outbound calls made so far. -/
def uploadLoop (net : Transport) (buf hash : Bytes) :
    List Bytes → Nat → ResponseWriter → List Request → ProxyResult
  | [], _, res, sent => { res := Fprintf res (ascii "Upload FAILED"), sent := sent }
  | s :: rest, n, res, sent =>
    let rq : Request := { method := .POST, url := uploadURL s hash, body := buf }
    match net n rq with
    | some r =>
      match ioutilReadAll r with
      | some response => { res := Fprintf res response, sent := sent ++ [rq] }
      | none => uploadLoop net buf hash rest (n + 1) res (sent ++ [rq])
    | none => uploadLoop net buf hash rest (n + 1) res (sent ++ [rq])

/-- Handler `UploadHandler` of `sos-server` (POST /upload); `buf` is the request
body as read by `ioutil.ReadAll`. -/
def UploadHandler (SERVERS : List Bytes) (net : Transport) (res : ResponseWriter)
    (buf : Bytes) : ProxyResult :=
  let hash := sha1Sum buf
  uploadLoop net buf hash SERVERS 0 res []

/-- The call `fmt.Sprintf("%s%s%s", s, "/blob/", id)`. -/
def downloadURL (s id : Bytes) : Bytes := s ++ ascii "/blob/" ++ id

/-- The loop `for _, s := range SERVERS` of `DownloadHandler` with the code after
it.  (The line printed on the process's standard output after a transport
error is not part of the response and is left out.) -/
def downloadLoop (net : Transport) (id : Bytes) :
    List Bytes → Nat → ResponseWriter → List Request → ProxyResult
  | [], _, res, sent =>
    { res := Fprintf (res.WriteHeader StatusNotFound) (ascii "Object not found."), sent := sent }
  | s :: rest, n, res, sent =>
    let rq : Request := { method := .GET, url := downloadURL s id, body := [] }
    match net n rq with
    | none => downloadLoop net id rest (n + 1) res (sent ++ [rq])
    | some r =>
      match ioutilReadAll r with
      | some response => { res := Fprintf res response, sent := sent ++ [rq] }
      | none => downloadLoop net id rest (n + 1) res (sent ++ [rq])

/-- The id `DownloadHandler` forwards: `id[0 : len(id)-len(extension)]` with
`extension := filepath.Ext(id)`. -/
def stripExt (id : Bytes) : Bytes := id.take (id.length - (filepathExt id).length)

/-- Handler `DownloadHandler` of `sos-server` (GET /fetch/{id}). -/
def DownloadHandler (SERVERS : List Bytes) (net : Transport) (res : ResponseWriter)
    (id : Bytes) : ProxyResult :=
  downloadLoop net (stripExt id) SERVERS 0 res []

/-- The response a client of the proxy receives for POST /upload. -/
def serveUpload (SERVERS : List Bytes) (net : Transport) (buf : Bytes) : ResponseWriter :=
  (UploadHandler SERVERS net ResponseWriter.new buf).res.finish

/-- The response a client of the proxy receives for GET /fetch/{id}. -/
def serveDownload (SERVERS : List Bytes) (net : Transport) (id : Bytes) : ResponseWriter :=
  (DownloadHandler SERVERS net ResponseWriter.new id).res.finish

/-- A network for examples: the calls numbered below `k` fail, every later call
is answered with `r`. -/
def netAfter (k : Nat) (r : Response) : Transport :=
  fun n _ => if n < k then none else some r

/-- A network for examples on which every call fails. -/
def netDown : Transport := fun _ _ => none

end SosServer

/-! ## The rule of the specification -/

/-- The id rule in the words of the specification: one or more characters, each
in `a-z` or `0-9`. -/
def AcceptedID (id : Bytes) : Prop :=
  id ≠ [] ∧ ∀ c ∈ id, ('a'.toNat ≤ c ∧ c ≤ 'z'.toNat) ∨ ('0'.toNat ≤ c ∧ c ≤ '9'.toNat)

instance (id : Bytes) : Decidable (AcceptedID id) := by
  unfold AcceptedID
  infer_instance

/-! ## Lemmas on formatting -/

/-- A format without `%` is written out unchanged. -/
theorem Sprintf0_of_no_pct (format : Bytes) (h : ∀ c ∈ format, c ≠ pct) :
    Sprintf0 format = format := by
  have h1 : format.takeWhile (fun c => decide (c ≠ pct)) = format := by
    rw [List.takeWhile_eq_self_iff]
    intro c hc
    simpa using h c hc
  have h2 : format.dropWhile (fun c => decide (c ≠ pct)) = [] := by
    rw [List.dropWhile_eq_nil_iff]
    intro c hc
    simpa using h c hc
  simp only [Sprintf0, doPrintf, h1, h2]

/-- Writing a format without `%` appends it to the body. -/
theorem Fprintf_of_no_pct (res : ResponseWriter) (format : Bytes)
    (h : ∀ c ∈ format, c ≠ pct) : Fprintf res format = res.Write format := by
  simp only [Fprintf, Sprintf0_of_no_pct format h]

/-- The fixed rejection message holds no `%`. -/
theorem alnumOnly_no_pct : ∀ c ∈ BlobServer.alnumOnly, c ≠ pct := by decide

/-- The fixed rejection message is written out unchanged. -/
theorem Fprintf_alnumOnly (res : ResponseWriter) :
    Fprintf res BlobServer.alnumOnly = res.Write BlobServer.alnumOnly :=
  Fprintf_of_no_pct res BlobServer.alnumOnly alnumOnly_no_pct

/-- A first write on a fresh response commits status 200. -/
theorem finish_write_new (p : Bytes) :
    (ResponseWriter.new.Write p).finish = { wroteHeader := true, status := 200, body := p } := by
  simp [ResponseWriter.Write, ResponseWriter.finish, ResponseWriter.WriteHeader,
    ResponseWriter.new]

/-- The format loop on formats with a directive and no operand: a `%` that ends
the format, a verb without operand, `%%`, a `.` that ends the format (read
as the verb, not as a precision), a precision followed by a verb, and an
argument index. -/
theorem Sprintf0_examples :
    Sprintf0 (ascii "100%") = ascii "100%!(NOVERB)" ∧
    Sprintf0 (ascii "a%db") = ascii "a%!d(MISSING)b" ∧
    Sprintf0 (ascii "50%% off") = ascii "50% off" ∧
    Sprintf0 (ascii "We got 100%.") = ascii "We got 100%!.(MISSING)" ∧
    Sprintf0 (ascii "%[1].") = ascii "%!.(BADINDEX)" ∧
    Sprintf0 (ascii "%.2f!") = ascii "%!f(MISSING)!" ∧
    Sprintf0 (ascii "%.") = ascii "%!.(MISSING)" ∧
    Sprintf0 (ascii "%5.") = ascii "%!.(MISSING)" ∧
    Sprintf0 (ascii "%[1]d") = ascii "%!d(BADINDEX)" := by
  decide

/-! ## The fuel of the format loop suffices -/

/-- The flag loop returns a suffix. -/
theorem skipFlags_length (l : Bytes) : (skipFlags l).length ≤ l.length := by
  induction l with
  | nil => simp [skipFlags]
  | cons c rest ih =>
    unfold skipFlags
    split
    · exact Nat.le_succ_of_le ih
    · exact le_refl _

/-- The digits loop returns a suffix. -/
theorem parsenumLoop_length :
    ∀ (l : Bytes) (num : Nat) (isnum : Bool), (parsenumLoop l num isnum).2.2.length ≤ l.length := by
  intro l
  induction l with
  | nil => intro num isnum; simp [parsenumLoop]
  | cons c rest ih =>
    intro num isnum
    unfold parsenumLoop
    split
    · split
      · simp
      · exact Nat.le_succ_of_le (ih _ _)
    · exact le_refl _

/-- The argument index returns a suffix. -/
theorem argNumber_length (l : Bytes) : (argNumber l).1.length ≤ l.length := by
  unfold argNumber
  split
  · simp only [List.length_drop]
    omega
  · exact le_refl _

/-- The width part returns a suffix. -/
theorem widthStep_length (f : Bytes) (a b : Bool) : (widthStep f a b).1.length ≤ f.length := by
  unfold widthStep
  split
  · simp
  · exact parsenumLoop_length f 0 false

/-- The precision part returns a suffix. -/
theorem precStep_length (f : Bytes) (a b : Bool) : (precStep f a b).1.length ≤ f.length := by
  unfold precStep
  split
  · rename_i c r0
    have h1 := argNumber_length (c :: r0)
    rcases hA : argNumber (c :: r0) with ⟨r1, ai, b1⟩
    rw [hA] at h1
    simp only at h1 ⊢
    split
    · simp only [List.length_cons] at h1 ⊢
      omega
    · exact Nat.le_trans (parsenumLoop_length r1 0 false) (Nat.le_succ_of_le h1)
  · exact le_refl _

/-- A directive leaves a format no longer than the one it started on. -/
theorem verbStep_length (a out rest : Bytes) (h : verbStep a = (out, some rest)) :
    rest.length ≤ a.length := by
  have h1 := skipFlags_length a
  have h2 := argNumber_length (skipFlags a)
  have h3 := widthStep_length (argNumber (skipFlags a)).1 (argNumber (skipFlags a)).2.1
    (argNumber (skipFlags a)).2.2
  generalize hw : widthStep (argNumber (skipFlags a)).1 (argNumber (skipFlags a)).2.1
    (argNumber (skipFlags a)).2.2 = w at h3
  have h4 := precStep_length w.1 w.2.2.1 w.2.2.2
  generalize hp : precStep w.1 w.2.2.1 w.2.2.2 = p at h4
  have h5 := argNumber_length p.1
  have hv : verbStep a =
      (match (if p.2.2.1 then (p.1, false, false) else argNumber p.1) with
        | (f4, _, b4) =>
          match f4 with
          | [] => (w.2.1 ++ p.2.1 ++ noVerbString, none)
          | c :: _ =>
            match decodeVerb f4 with
            | (verb, size) =>
              let rest := f4.drop size
              if c = pct then (w.2.1 ++ p.2.1 ++ [pct], some rest)
              else if p.2.2.2 || b4 then
                (w.2.1 ++ p.2.1 ++ ascii "%!" ++ verb ++ ascii "(BADINDEX)", some rest)
              else
                (w.2.1 ++ p.2.1 ++ ascii "%!" ++ verb ++ ascii "(MISSING)", some rest)) := by
    unfold verbStep
    rw [← hp, ← hw]
  rw [hv] at h
  have h6 : (if p.2.2.1 then (p.1, false, false) else argNumber p.1).1.length ≤ p.1.length := by
    split
    · exact le_refl _
    · exact h5
  generalize (if p.2.2.1 then (p.1, false, false) else argNumber p.1) = q at h h6
  obtain ⟨f4, x, b4⟩ := q
  simp only at h h6
  cases f4 with
  | nil => simp at h
  | cons c t =>
    simp only at h
    have hd : ((c :: t).drop (decodeVerb (c :: t)).2).length ≤ (c :: t).length := by
      simp only [List.length_drop]
      omega
    have hrest : rest = (c :: t).drop (decodeVerb (c :: t)).2 := by
      split at h
      · cases h; rfl
      · split at h
        · cases h; rfl
        · cases h; rfl
    rw [hrest]
    omega

/-- The result of the format loop does not depend on the fuel once it exceeds the
length of the format. -/
theorem doPrintf_fuel : ∀ (fuel₁ fuel₂ : Nat) (format : Bytes),
    format.length < fuel₁ → format.length < fuel₂ →
      doPrintf fuel₁ format = doPrintf fuel₂ format := by
  intro fuel₁
  induction fuel₁ with
  | zero => intro fuel₂ format h; omega
  | succ fuel₁ ih =>
    intro fuel₂ format h1 h2
    cases fuel₂ with
    | zero => omega
    | succ fuel₂ =>
      simp only [doPrintf]
      have hdrop := (List.dropWhile_sublist (l := format) (fun c => decide (c ≠ pct))).length_le
      cases hd : List.dropWhile (fun c => decide (c ≠ pct)) format with
      | nil => rfl
      | cons c afterPct =>
        rw [hd] at hdrop
        simp only [List.length_cons] at hdrop
        simp only
        cases hv : verbStep afterPct with
        | mk out rest =>
          cases rest with
          | none => rfl
          | some rest =>
            have := verbStep_length afterPct out rest hv
            simp only
            rw [ih fuel₂ rest (by omega) (by omega)]

/-- More fuel than `Sprintf0` provides changes nothing. -/
theorem Sprintf0_fuel (format : Bytes) (fuel : Nat) (h : format.length < fuel) :
    doPrintf fuel format = Sprintf0 format :=
  doPrintf_fuel fuel (format.length + 1) format h (Nat.lt_succ_self _)

/-! ## Lemmas on the id pattern -/

/-- End positions of a repetition whose body `f` consumes exactly one byte, and
only at the positions satisfying `P`: every position reachable through such
positions. -/
theorem mem_plusEnds_step (f : Nat → List Nat) (P : Nat → Prop)
    (hf : ∀ k x, x ∈ f k ↔ x = k + 1 ∧ P k) :
    ∀ (fuel i j : Nat),
      j ∈ plusEnds f fuel i ↔ i < j ∧ j ≤ i + fuel ∧ ∀ k, i ≤ k → k < j → P k := by
  intro fuel
  induction fuel with
  | zero =>
    intro i j
    simp only [plusEnds, List.not_mem_nil, false_iff]
    omega
  | succ fuel ih =>
    intro i j
    have hstep : j ∈ plusEnds f (fuel + 1) i ↔
        P i ∧ (j = i + 1 ∨ j ∈ plusEnds f fuel (i + 1)) := by
      simp only [plusEnds, List.mem_flatMap, List.mem_cons, hf]
      constructor
      · rintro ⟨x, ⟨rfl, hP⟩, h⟩
        refine ⟨hP, ?_⟩
        rcases h with h | h
        · exact Or.inl h
        · rw [if_pos (Nat.lt_succ_self i)] at h
          exact Or.inr h
      · rintro ⟨hP, h⟩
        refine ⟨i + 1, ⟨rfl, hP⟩, ?_⟩
        rcases h with h | h
        · exact Or.inl h
        · rw [if_pos (Nat.lt_succ_self i)]
          exact Or.inr h
    rw [hstep, ih (i + 1) j]
    constructor
    · rintro ⟨hP, rfl | ⟨h1, h2, h3⟩⟩
      · refine ⟨Nat.lt_succ_self i, by omega, ?_⟩
        intro k hk1 hk2
        have : k = i := by omega
        subst this
        exact hP
      · refine ⟨by omega, by omega, ?_⟩
        intro k hk1 hk2
        by_cases hki : k = i
        · subst hki
          exact hP
        · exact h3 k (by omega) hk2
    · rintro ⟨h1, h2, h3⟩
      refine ⟨h3 i (le_refl i) h1, ?_⟩
      by_cases hj : j = i + 1
      · exact Or.inl hj
      · exact Or.inr ⟨by omega, by omega, fun k hk1 hk2 => h3 k (by omega) hk2⟩

/-- A character class consumes one byte, at the positions holding a byte of the
class. -/
theorem mem_ends_cls (s : Bytes) (ranges : List (Nat × Nat)) (k x : Nat) :
    x ∈ Regex.ends s (.cls ranges) k ↔
      x = k + 1 ∧ ∃ c, s.get? k = some c ∧ inRanges ranges c = true := by
  simp only [Regex.ends]
  cases hget : s.get? k with
  | none => simp
  | some c =>
    by_cases hin : inRanges ranges c = true
    · simp [hin]
    · simp [hin]

/-- The id pattern matches exactly the non-empty texts made of bytes of the
class. -/
theorem MatchString_idPattern (s : Bytes) :
    idPattern.MatchString s = true ↔
      s ≠ [] ∧ ∀ c ∈ s, inRanges [(97, 122), (48, 57)] c = true := by
  have key := mem_plusEnds_step (fun k => Regex.ends s (.cls [(97, 122), (48, 57)]) k)
    (fun k => ∃ c, s.get? k = some c ∧ inRanges [(97, 122), (48, 57)] c = true)
    (mem_ends_cls s [(97, 122), (48, 57)]) (s.length + 1) 0 s.length
  have hm : idPattern.MatchString s = true ↔
      s.length ∈ plusEnds (fun k => Regex.ends s (.cls [(97, 122), (48, 57)]) k)
        (s.length + 1) 0 := by
    have hgrp : ∀ i, Regex.ends s (.group (.plus (.cls [(97, 122), (48, 57)]))) i =
        plusEnds (fun k => Regex.ends s (.cls [(97, 122), (48, 57)]) k) (s.length + 1) i :=
      fun i => rfl
    have hcat : ∀ (r₁ r₂ : Regex) (i : Nat), Regex.ends s (.cat r₁ r₂) i =
        (Regex.ends s r₁ i).flatMap fun j => Regex.ends s r₂ j := fun _ _ _ => rfl
    have hbeg : ∀ i, Regex.ends s .beginText i = if i = 0 then [i] else [] := fun _ => rfl
    have hend : ∀ i, Regex.ends s .endText i = if i = s.length then [i] else [] :=
      fun _ => rfl
    simp only [Regex.MatchString, idPattern, hcat, hgrp, hbeg, hend, List.any_eq_true,
      List.mem_range, Bool.not_eq_true', List.isEmpty_eq_false]
    constructor
    · rintro ⟨i, -, hne⟩
      obtain ⟨x, hx⟩ := List.exists_mem_of_ne_nil _ hne
      by_cases hi : i = 0
      · subst hi
        simp only [if_true, List.flatMap_cons, List.flatMap_nil, List.append_nil,
          List.mem_flatMap] at hx
        obtain ⟨k, hk, hx⟩ := hx
        by_cases hkl : k = s.length
        · rw [hkl] at hk
          exact hk
        · simp [hkl] at hx
      · simp [hi] at hx
    · intro h
      refine ⟨0, Nat.succ_pos _, ?_⟩
      apply List.ne_nil_of_mem (a := s.length)
      simp only [if_true, List.flatMap_cons, List.flatMap_nil, List.append_nil,
        List.mem_flatMap]
      exact ⟨s.length, h, by simp⟩
  rw [hm, key]
  constructor
  · rintro ⟨h1, -, h3⟩
    refine ⟨List.ne_nil_of_length_pos h1, ?_⟩
    intro c hc
    obtain ⟨k, hk, rfl⟩ := List.getElem_of_mem hc
    obtain ⟨c1, hc1, hc2⟩ := h3 k (Nat.zero_le k) hk
    rw [List.get?_eq_getElem?, List.getElem?_eq_getElem hk] at hc1
    cases hc1
    exact hc2
  · rintro ⟨h1, h2⟩
    refine ⟨List.length_pos.mpr h1, by omega, ?_⟩
    intro k _ hk
    refine ⟨s[k], ?_, h2 _ (List.getElem_mem hk)⟩
    rw [List.get?_eq_getElem?, List.getElem?_eq_getElem hk]

/-- The source's regular expression decides the rule of the specification. -/
theorem MatchString_iff_AcceptedID (id : Bytes) :
    idPattern.MatchString id = true ↔ AcceptedID id := by
  rw [MatchString_idPattern]
  unfold AcceptedID
  have hc : ∀ c : Nat, inRanges [(97, 122), (48, 57)] c = true ↔
      (('a'.toNat ≤ c ∧ c ≤ 'z'.toNat) ∨ ('0'.toNat ≤ c ∧ c ≤ '9'.toNat)) := by
    intro c
    have ha : 'a'.toNat = 97 := by decide
    have hz : 'z'.toNat = 122 := by decide
    have h0 : '0'.toNat = 48 := by decide
    have h9 : '9'.toNat = 57 := by decide
    simp [inRanges, ha, hz, h0, h9]
  constructor
  · rintro ⟨h1, h2⟩
    exact ⟨h1, fun c hc1 => (hc c).mp (h2 c hc1)⟩
  · rintro ⟨h1, h2⟩
    exact ⟨h1, fun c hc1 => (hc c).mpr (h2 c hc1)⟩

/-! ## Lemmas on the decimal rendering -/

/-- The character of a decimal digit is `0` shifted by the digit. -/
theorem digitChar_toNat (d : Nat) (h : d < 10) : (Nat.digitChar d).toNat = 48 + d := by
  interval_cases d <;> rfl

/-- The digit loop agrees with the one of `Nat.repr`. -/
theorem decimalLoop_eq_toDigitsCore :
    ∀ (fuel n : Nat) (acc : List Char),
      BlobServer.decimalLoop fuel n (acc.map Char.toNat) =
        (Nat.toDigitsCore 10 fuel n acc).map Char.toNat := by
  intro fuel
  induction fuel with
  | zero => intro n acc; rfl
  | succ fuel ih =>
    intro n acc
    have hd : (Nat.digitChar (n % 10)).toNat = 48 + n % 10 :=
      digitChar_toNat (n % 10) (Nat.mod_lt n (by decide))
    simp only [BlobServer.decimalLoop, Nat.toDigitsCore]
    by_cases h0 : n / 10 = 0
    · simp only [h0, if_true, List.map_cons, hd]
    · simp only [h0, if_false]
      rw [← hd, ← List.map_cons, ih]

/-- The rendering `decimal` is the usual decimal notation of a number. -/
theorem decimal_eq_repr (n : Nat) : BlobServer.decimal n = ascii (toString n) := by
  have h := decimalLoop_eq_toDigitsCore (n + 1) n []
  simpa [BlobServer.decimal, ascii, Nat.repr, Nat.toDigits] using h

/-- Every byte produced by the digit loop is a decimal digit when the
accumulator holds digits. -/
theorem decimalLoop_digits :
    ∀ (fuel n : Nat) (acc : Bytes), (∀ c ∈ acc, 48 ≤ c ∧ c ≤ 57) →
      ∀ c ∈ BlobServer.decimalLoop fuel n acc, 48 ≤ c ∧ c ≤ 57 := by
  intro fuel
  induction fuel with
  | zero => intro n acc h; exact h
  | succ fuel ih =>
    intro n acc h
    have hcons : ∀ c ∈ (48 + n % 10) :: acc, 48 ≤ c ∧ c ≤ 57 := by
      intro c hc
      rcases List.mem_cons.mp hc with rfl | hc
      · have := Nat.mod_lt n (show 0 < 10 by decide)
        omega
      · exact h c hc
    simp only [BlobServer.decimalLoop]
    by_cases h0 : n / 10 = 0
    · simpa only [h0, if_true] using hcons
    · simpa only [h0, if_false] using ih (n / 10) _ hcons

/-- The result text of an upload holds no `%` when the id is accepted. -/
theorem uploadResult_no_pct (id : Bytes) (size : Nat) (hid : AcceptedID id) :
    ∀ c ∈ BlobServer.uploadResult id size, c ≠ pct := by
  have h1 : ∀ c ∈ ascii "\x7b\"id\":\"", c ≠ pct := by decide
  have h2 : ∀ c ∈ ascii "\",\"status\":\"OK\",\"size\":", c ≠ pct := by decide
  have h3 : ∀ c ∈ ascii "\x7d", c ≠ pct := by decide
  have ha : 'a'.toNat = 97 := by decide
  have hz : 'z'.toNat = 122 := by decide
  have h0 : '0'.toNat = 48 := by decide
  have h9 : '9'.toNat = 57 := by decide
  intro c hc
  simp only [BlobServer.uploadResult, List.mem_append] at hc
  rcases hc with (((hc | hc) | hc) | hc) | hc
  · exact h1 c hc
  · have := hid.2 c hc
    rw [ha, hz, h0, h9] at this
    unfold pct
    omega
  · exact h2 c hc
  · have := decimalLoop_digits (size + 1) size [] (by simp) c hc
    unfold pct
    omega
  · exact h3 c hc

/-! ## Theorems on the storage node -/

namespace BlobServer

/-- C1: both handlers of the storage node test the id with the same pattern,
which accepts exactly the non-empty ids made of characters in `a-z` or
`0-9` (so the empty id, upper-case letters, `.`, `/` and a trailing newline
are rejected).  For a rejected id the handler writes the fixed message and
returns without a call on the storage backend; hence every call made on
the backend, by either handler, carries an accepted id. -/
theorem storage_only_called_with_accepted_id {σ : Type} (STORAGE : StorageHandler σ)
    (st : σ) (res : ResponseWriter) (id : Bytes) (body : Bytes × Option Bytes) :
    (idPattern.MatchString id = true ↔ AcceptedID id) ∧
    (¬ AcceptedID id →
      (GetHandler STORAGE st res id).res = res.Write alnumOnly ∧
      (GetHandler STORAGE st res id).calls = [] ∧
      (UploadHandler STORAGE st res id body).res = res.Write alnumOnly ∧
      (UploadHandler STORAGE st res id body).calls = []) ∧
    (∀ c ∈ (GetHandler STORAGE st res id).calls, AcceptedID c.id) ∧
    (∀ c ∈ (UploadHandler STORAGE st res id body).calls, AcceptedID c.id) ∧
    idPattern.MatchString (ascii "") = false ∧
    idPattern.MatchString (ascii "ABC") = false ∧
    idPattern.MatchString (ascii "abC1") = false ∧
    idPattern.MatchString (ascii ".") = false ∧
    idPattern.MatchString (ascii "a.b") = false ∧
    idPattern.MatchString (ascii "/") = false ∧
    idPattern.MatchString (ascii "../x") = false ∧
    idPattern.MatchString (ascii "abc\n") = false ∧
    idPattern.MatchString (ascii "abc123") = true := by
  refine ⟨MatchString_iff_AcceptedID id, ?_, ?_, ?_, by decide, by decide, by decide,
    by decide, by decide, by decide, by decide, by decide, by decide⟩
  · intro hrej
    have hm : idPattern.MatchString id = false := by
      cases h : idPattern.MatchString id with
      | false => rfl
      | true => exact absurd ((MatchString_iff_AcceptedID id).mp h) hrej
    simp [GetHandler, UploadHandler, hm, deferred, Fprintf_alnumOnly]
  · intro c hc
    cases hm : idPattern.MatchString id with
    | false => simp [GetHandler, hm] at hc
    | true =>
      have hacc := (MatchString_iff_AcceptedID id).mp hm
      simp only [GetHandler, hm] at hc
      cases hg : STORAGE.Get st id with
      | none =>
        simp [hg] at hc
        subst hc
        exact hacc
      | some data =>
        simp [hg] at hc
        subst hc
        exact hacc
  · intro c hc
    cases hm : idPattern.MatchString id with
    | false => simp [UploadHandler, hm] at hc
    | true =>
      have hacc := (MatchString_iff_AcceptedID id).mp hm
      obtain ⟨content, err⟩ := body
      simp only [UploadHandler, hm] at hc
      cases herr : err.isSome with
      | true => simp [herr] at hc
      | false =>
        cases hs : STORAGE.Store st id content with
        | mk result st1 =>
          cases result with
          | false =>
            simp [herr, hs] at hc
            subst hc
            exact hacc
          | true =>
            simp [herr, hs] at hc
            subst hc
            exact hacc

/-- For every rejected id, whatever the backend, both handlers answer with
status 200: the status 500 assigned to the local `status` is only used by
the deferred function, which runs `http.Error` only when `err` is set. -/
theorem rejected_id_status {σ : Type} (STORAGE : StorageHandler σ) (st : σ) (id : Bytes)
    (body : Bytes × Option Bytes) (hrej : ¬ AcceptedID id) :
    serveGet STORAGE st id = { wroteHeader := true, status := 200, body := alnumOnly } ∧
    serveUpload STORAGE st id body =
      { wroteHeader := true, status := 200, body := alnumOnly } := by
  have hm : idPattern.MatchString id = false := by
    cases h : idPattern.MatchString id with
    | false => rfl
    | true => exact absurd ((MatchString_iff_AcceptedID id).mp h) hrej
  simp [serveGet, serveUpload, GetHandler, UploadHandler, hm, deferred, Fprintf_alnumOnly,
    finish_write_new]

/-- C2 (the code at a failing input): for the rejected id `ABC`, GET and POST
on /blob/ABC are answered with the fixed message under status 200, not
500. -/
theorem invalid_id_answered_with_200 :
    IsBytes (ascii "ABC") ∧ ¬ AcceptedID (ascii "ABC") ∧
    serveGet (memStorage false) [] (ascii "ABC") =
      { wroteHeader := true, status := 200, body := ascii "Alphanumeric IDs only." } ∧
    serveUpload (memStorage false) [] (ascii "ABC") (ascii "data", none) =
      { wroteHeader := true, status := 200, body := ascii "Alphanumeric IDs only." } ∧
    StatusInternalServerError = 500 := by
  decide

/-- For every accepted id and every body read without error, a failing `Store`
leaves the response untouched: the client receives status 200 and an empty
body. -/
theorem store_failure_status {σ : Type} (STORAGE : StorageHandler σ) (st : σ)
    (id content : Bytes) (hid : AcceptedID id)
    (hfail : (STORAGE.Store st id content).1 = false) :
    serveUpload STORAGE st id (content, none) =
      { wroteHeader := true, status := 200, body := [] } := by
  have hm : idPattern.MatchString id = true := (MatchString_iff_AcceptedID id).mpr hid
  cases hs : STORAGE.Store st id content with
  | mk result st1 =>
    rw [hs] at hfail
    simp only at hfail
    subst hfail
    simp [serveUpload, UploadHandler, hm, hs, deferred, ResponseWriter.finish,
      ResponseWriter.WriteHeader, ResponseWriter.new]

/-- C3 (the code at a failing input): POST /blob/abc with body `data` on a
backend whose `Store` fails is answered with status 200 and an empty body,
not with status 500; the success result is not written. -/
theorem store_failure_answered_with_200 :
    AcceptedID (ascii "abc") ∧ IsBytes (ascii "data") ∧
    ((memStorage true).Store [] (ascii "abc") (ascii "data")).1 = false ∧
    serveUpload (memStorage true) [] (ascii "abc") (ascii "data", none) =
      { wroteHeader := true, status := 200, body := [] } ∧
    (UploadHandler (memStorage true) [] ResponseWriter.new (ascii "abc")
      (ascii "data", none)).calls = [.store (ascii "abc") (ascii "data")] := by
  decide

/-- For every accepted id, a stored blob without the byte `%` is returned
exactly, under status 200. -/
theorem get_returns_blob_without_pct {σ : Type} (STORAGE : StorageHandler σ) (st : σ)
    (k b : Bytes) (hk : AcceptedID k) (hget : STORAGE.Get st k = some b)
    (hb : ∀ c ∈ b, c ≠ pct) :
    serveGet STORAGE st k = { wroteHeader := true, status := 200, body := b } := by
  have hm : idPattern.MatchString k = true := (MatchString_iff_AcceptedID k).mpr hk
  simp [serveGet, GetHandler, hm, hget, deferred, Fprintf_of_no_pct _ b hb, finish_write_new]

/-- C4 (the code at a failing input): with the blob `100%` stored under `abc`,
GET /blob/abc is answered with the body `100%!(NOVERB)`, the blob being
used as the format string of `fmt.Fprintf`. -/
theorem get_rewrites_blob_with_pct :
    AcceptedID (ascii "abc") ∧ IsBytes (ascii "100%") ∧
    (memStorage false).Get [(ascii "abc", ascii "100%")] (ascii "abc") = some (ascii "100%") ∧
    serveGet (memStorage false) [(ascii "abc", ascii "100%")] (ascii "abc") =
      { wroteHeader := true, status := 200, body := ascii "100%!(NOVERB)" } ∧
    ascii "100%!(NOVERB)" ≠ ascii "100%" := by
  decide

/-- C5: for every accepted id and every request body `content` read without
error for which `Store` succeeds, POST /blob/{id} is answered with status
200 and the body `{"id":"<id>","status":"OK","size":<N>}`, where `<id>` is
the id as requested and `<N>` the decimal notation of the number of bytes
of `content`, which is the content passed to `Store`. -/
theorem upload_success_result {σ : Type} (STORAGE : StorageHandler σ) (st : σ)
    (id content : Bytes) (hid : AcceptedID id)
    (hok : (STORAGE.Store st id content).1 = true) :
    serveUpload STORAGE st id (content, none) =
      { wroteHeader := true, status := 200,
        body := ascii "\x7b\"id\":\"" ++ id ++ ascii "\",\"status\":\"OK\",\"size\":"
          ++ ascii (toString content.length) ++ ascii "\x7d" } ∧
    (UploadHandler STORAGE st ResponseWriter.new id (content, none)).calls =
      [.store id content] := by
  have hm : idPattern.MatchString id = true := (MatchString_iff_AcceptedID id).mpr hid
  have hfmt := Fprintf_of_no_pct ResponseWriter.new _
    (uploadResult_no_pct id content.length hid)
  cases hs : STORAGE.Store st id content with
  | mk result st1 =>
    rw [hs] at hok
    simp only at hok
    subst hok
    constructor
    · simp only [serveUpload, UploadHandler, hm, hs, deferred, Option.isSome_none,
        Bool.not_true, Bool.false_eq_true, if_false, hfmt, finish_write_new]
      simp [uploadResult, decimal_eq_repr, finish_write_new]
    · simp [UploadHandler, hm, hs]

/-- C5 at a concrete upload: `hello` posted to /blob/abc on a working backend is
answered with `{"id":"abc","status":"OK","size":5}`. -/
theorem upload_success_result_witness :
    AcceptedID (ascii "abc") ∧
    ((memStorage false).Store [] (ascii "abc") (ascii "hello")).1 = true ∧
    serveUpload (memStorage false) [] (ascii "abc") (ascii "hello", none) =
      { wroteHeader := true, status := 200,
        body := ascii "\x7b\"id\":\"abc\",\"status\":\"OK\",\"size\":5\x7d" } :=
  ⟨by decide, by decide,
    (upload_success_result (memStorage false) [] (ascii "abc") (ascii "hello")
      (by decide) (by decide)).1.trans (by decide)⟩

end BlobServer

/-! ## Lemmas on the digest and its rendering -/

/-- The big-endian rendering has the requested number of bytes. -/
theorem length_beBytes (n x : Nat) : (beBytes n x).length = n := by
  induction n with
  | zero => rfl
  | succ n ih => simp [beBytes, ih]

/-- A SHA-1 digest has 20 bytes. -/
theorem length_sha1Sum (msg : Bytes) : (sha1Sum msg).length = 20 := by
  simp [sha1Sum, length_beBytes]

/-- The hexadecimal rendering has two digits per byte. -/
theorem length_hexBytes (b : Bytes) : (hexBytes b).length = 2 * b.length := by
  induction b with
  | nil => rfl
  | cons x rest ih => simp [hexBytes, ih]; omega

/-- A hexadecimal digit is one of `0-9`, `a-f`. -/
theorem hexDigit_lower (d : Nat) (h : d < 16) :
    (48 ≤ hexDigit d ∧ hexDigit d ≤ 57) ∨ (97 ≤ hexDigit d ∧ hexDigit d ≤ 102) := by
  unfold hexDigit
  split <;> omega

/-- The hexadecimal rendering only holds the digits `0-9`, `a-f`. -/
theorem hexBytes_lower (b : Bytes) :
    ∀ c ∈ hexBytes b, (48 ≤ c ∧ c ≤ 57) ∨ (97 ≤ c ∧ c ≤ 102) := by
  induction b with
  | nil => intro c hc; simp [hexBytes] at hc
  | cons x rest ih =>
    intro c hc
    simp only [hexBytes, List.mem_cons] at hc
    rcases hc with rfl | rfl | hc
    · exact hexDigit_lower _ (Nat.mod_lt _ (by decide))
    · exact hexDigit_lower _ (Nat.mod_lt _ (by decide))
    · exact ih c hc

/-- The digest function on the test vectors of the SHA-1 standard: the empty
message, `abc`, and the 56-byte message that needs a second block. -/
theorem sha1Sum_test_vectors :
    hexBytes (sha1Sum []) = ascii "da39a3ee5e6b4b0d3255bfef95601890afd80709" ∧
    hexBytes (sha1Sum (ascii "abc")) = ascii "a9993e364706816aba3e25717850c26c9cd0d89d" ∧
    hexBytes (sha1Sum (ascii "abcdbcdecdefdefgefghfghighijhijkijkljklmklmnlmnomnopnopq")) =
      ascii "84983e441c3bd26ebaae4aa1f95129e5e54670f1" := by
  decide

/-! ## Lemmas on the failover loops -/

namespace SosServer

/-- The upload loop passes over a run of nodes whose calls fail. -/
theorem uploadLoop_skip (net : Transport) (buf hash : Bytes) :
    ∀ (pre rest : List Bytes) (n : Nat) (res : ResponseWriter) (sent : List Request),
      (∀ i t, pre[i]? = some t →
        net (n + i) { method := .POST, url := uploadURL t hash, body := buf } = none) →
      uploadLoop net buf hash (pre ++ rest) n res sent =
        uploadLoop net buf hash rest (n + pre.length) res
          (sent ++ pre.map fun t => { method := .POST, url := uploadURL t hash, body := buf })
    := by
  intro pre
  induction pre with
  | nil => intro rest n res sent _; simp
  | cons s pre ih =>
    intro rest n res sent h
    have h0 := h 0 s (by simp)
    simp only [Nat.add_zero] at h0
    have hrest : ∀ i t, pre[i]? = some t →
        net (n + 1 + i) { method := .POST, url := uploadURL t hash, body := buf } = none := by
      intro i t hit
      have := h (i + 1) t (by simpa using hit)
      rwa [show n + (i + 1) = n + 1 + i by omega] at this
    simp only [List.cons_append, uploadLoop, h0, List.append_eq]
    rw [ih rest (n + 1) res _ hrest]
    simp [Nat.add_assoc, Nat.add_comm 1]

/-- The download loop passes over a run of nodes whose calls fail. -/
theorem downloadLoop_skip (net : Transport) (id : Bytes) :
    ∀ (pre rest : List Bytes) (n : Nat) (res : ResponseWriter) (sent : List Request),
      (∀ i t, pre[i]? = some t →
        net (n + i) { method := .GET, url := downloadURL t id, body := [] } = none) →
      downloadLoop net id (pre ++ rest) n res sent =
        downloadLoop net id rest (n + pre.length) res
          (sent ++ pre.map fun t => { method := .GET, url := downloadURL t id, body := [] })
    := by
  intro pre
  induction pre with
  | nil => intro rest n res sent _; simp
  | cons s pre ih =>
    intro rest n res sent h
    have h0 := h 0 s (by simp)
    simp only [Nat.add_zero] at h0
    have hrest : ∀ i t, pre[i]? = some t →
        net (n + 1 + i) { method := .GET, url := downloadURL t id, body := [] } = none := by
      intro i t hit
      have := h (i + 1) t (by simpa using hit)
      rwa [show n + (i + 1) = n + 1 + i by omega] at this
    simp only [List.cons_append, downloadLoop, h0, List.append_eq]
    rw [ih rest (n + 1) res _ hrest]
    simp [Nat.add_assoc, Nat.add_comm 1]

/-- Whatever the network does, the requests of the upload loop go to a prefix of
the remaining nodes, one request per node, in order. -/
theorem uploadLoop_sent_prefix (net : Transport) (buf hash : Bytes) :
    ∀ (servers : List Bytes) (n : Nat) (res : ResponseWriter) (sent : List Request),
      ∃ k, k ≤ servers.length ∧
        (uploadLoop net buf hash servers n res sent).sent =
          sent ++ (servers.take k).map fun t =>
            { method := .POST, url := uploadURL t hash, body := buf } := by
  intro servers
  induction servers with
  | nil => intro n res sent; exact ⟨0, le_refl 0, by simp [uploadLoop]⟩
  | cons s rest ih =>
    intro n res sent
    simp only [uploadLoop, ioutilReadAll]
    cases hnet : net n { method := .POST, url := uploadURL s hash, body := buf } with
    | some r => exact ⟨1, by simp, by simp⟩
    | none =>
      obtain ⟨k, hk, hsent⟩ := ih (n + 1) res
        (sent ++ [{ method := .POST, url := uploadURL s hash, body := buf }])
      exact ⟨k + 1, by simpa using hk, by simp [hsent]⟩

/-- Whatever the network does, the requests of the download loop go to a prefix
of the remaining nodes, one request per node, in order. -/
theorem downloadLoop_sent_prefix (net : Transport) (id : Bytes) :
    ∀ (servers : List Bytes) (n : Nat) (res : ResponseWriter) (sent : List Request),
      ∃ k, k ≤ servers.length ∧
        (downloadLoop net id servers n res sent).sent =
          sent ++ (servers.take k).map fun t =>
            { method := .GET, url := downloadURL t id, body := [] } := by
  intro servers
  induction servers with
  | nil => intro n res sent; exact ⟨0, le_refl 0, by simp [downloadLoop]⟩
  | cons s rest ih =>
    intro n res sent
    simp only [downloadLoop, ioutilReadAll]
    cases hnet : net n { method := .GET, url := downloadURL s id, body := [] } with
    | some r => exact ⟨1, by simp, by simp⟩
    | none =>
      obtain ⟨k, hk, hsent⟩ := ih (n + 1) res
        (sent ++ [{ method := .GET, url := downloadURL s id, body := [] }])
      exact ⟨k + 1, by simpa using hk, by simp [hsent]⟩

/-- The upload loop when the first `k` calls fail and the call to node `k`, if
there is one, completes with `r`. -/
theorem uploadLoop_first (net : Transport) (buf hash : Bytes) (SERVERS : List Bytes)
    (k : Nat) (r : Response) (res : ResponseWriter)
    (hfail : ∀ i t, i < k → SERVERS[i]? = some t →
      net i { method := .POST, url := uploadURL t hash, body := buf } = none)
    (hout : ∀ t, SERVERS[k]? = some t →
      net k { method := .POST, url := uploadURL t hash, body := buf } = some r) :
    uploadLoop net buf hash SERVERS 0 res [] =
      { res := if k < SERVERS.length then Fprintf res r.body
          else Fprintf res (ascii "Upload FAILED"),
        sent := (SERVERS.take (k + 1)).map fun t =>
          { method := .POST, url := uploadURL t hash, body := buf } } := by
  have hskip := uploadLoop_skip net buf hash (SERVERS.take k) (SERVERS.drop k) 0 res [] (by
    intro i t hit
    rw [List.getElem?_take] at hit
    by_cases hik : i < k
    · rw [if_pos hik] at hit
      simpa using hfail i t hik hit
    · rw [if_neg hik] at hit
      cases hit)
  rw [List.take_append_drop] at hskip
  rw [hskip, List.take_succ]
  have hk0 : (SERVERS.drop k)[0]? = SERVERS[k]? := by
    rw [List.getElem?_drop]
    rfl
  cases hd : SERVERS.drop k with
  | nil =>
    have hlen : SERVERS.length ≤ k := List.drop_eq_nil_iff.mp hd
    have hnone : SERVERS[k]? = none := List.getElem?_eq_none hlen
    simp [uploadLoop, hnone, Nat.not_lt.mpr hlen]
  | cons t post =>
    have hsome : SERVERS[k]? = some t := by
      rw [← hk0, hd]
      simp
    have hlt : k < SERVERS.length := by
      obtain ⟨h, -⟩ := List.getElem?_eq_some.mp hsome
      exact h
    have hmin : min k SERVERS.length = k := Nat.min_eq_left (Nat.le_of_lt hlt)
    simp [uploadLoop, ioutilReadAll, hsome, hlt, hmin, hout t hsome]

/-- The download loop when the first `k` calls fail and the call to node `k`, if
there is one, completes with `r`. -/
theorem downloadLoop_first (net : Transport) (id : Bytes) (SERVERS : List Bytes)
    (k : Nat) (r : Response) (res : ResponseWriter)
    (hfail : ∀ i t, i < k → SERVERS[i]? = some t →
      net i { method := .GET, url := downloadURL t id, body := [] } = none)
    (hout : ∀ t, SERVERS[k]? = some t →
      net k { method := .GET, url := downloadURL t id, body := [] } = some r) :
    downloadLoop net id SERVERS 0 res [] =
      { res := if k < SERVERS.length then Fprintf res r.body
          else Fprintf (res.WriteHeader StatusNotFound) (ascii "Object not found."),
        sent := (SERVERS.take (k + 1)).map fun t =>
          { method := .GET, url := downloadURL t id, body := [] } } := by
  have hskip := downloadLoop_skip net id (SERVERS.take k) (SERVERS.drop k) 0 res [] (by
    intro i t hit
    rw [List.getElem?_take] at hit
    by_cases hik : i < k
    · rw [if_pos hik] at hit
      simpa using hfail i t hik hit
    · rw [if_neg hik] at hit
      cases hit)
  rw [List.take_append_drop] at hskip
  rw [hskip, List.take_succ]
  have hk0 : (SERVERS.drop k)[0]? = SERVERS[k]? := by
    rw [List.getElem?_drop]
    rfl
  cases hd : SERVERS.drop k with
  | nil =>
    have hlen : SERVERS.length ≤ k := List.drop_eq_nil_iff.mp hd
    have hnone : SERVERS[k]? = none := List.getElem?_eq_none hlen
    simp [downloadLoop, hnone, Nat.not_lt.mpr hlen]
  | cons t post =>
    have hsome : SERVERS[k]? = some t := by
      rw [← hk0, hd]
      simp
    have hlt : k < SERVERS.length := by
      obtain ⟨h, -⟩ := List.getElem?_eq_some.mp hsome
      exact h
    have hmin : min k SERVERS.length = k := Nat.min_eq_left (Nat.le_of_lt hlt)
    simp [downloadLoop, ioutilReadAll, hsome, hlt, hmin, hout t hsome]

/-- The two fixed texts of the proxy are written out unchanged. -/
theorem Fprintf_fixed (res : ResponseWriter) :
    Fprintf res (ascii "Upload FAILED") = res.Write (ascii "Upload FAILED") ∧
    Fprintf res (ascii "Object not found.") = res.Write (ascii "Object not found.") :=
  ⟨Fprintf_of_no_pct res _ (by decide), Fprintf_of_no_pct res _ (by decide)⟩

end SosServer

/-! ## Lemmas on `filepath.Ext` -/

/-- Without a `.` the scan finds no extension. -/
theorem extLoop_no_dot : ∀ (r : Bytes) (n : Nat), 46 ∉ r → extLoop r n = 0 := by
  intro r
  induction r with
  | nil => intro n _; rfl
  | cons c rest ih =>
    intro n h
    have hc : c ≠ 46 := fun e => h (by simp [e])
    have hrest : 46 ∉ rest := fun e => h (List.mem_cons_of_mem c e)
    simp only [extLoop, hc, if_false]
    split
    · rfl
    · exact ih (n + 1) hrest

/-- The scan stops at the first `.` met when no separator precedes it. -/
theorem extLoop_dot : ∀ (a b : Bytes) (n : Nat), 46 ∉ a → 47 ∉ a →
    extLoop (a ++ 46 :: b) n = n + a.length + 1 := by
  intro a
  induction a with
  | nil => intro b n _ _; simp [extLoop]
  | cons c rest ih =>
    intro b n h46 h47
    have hc46 : c ≠ 46 := fun e => h46 (by simp [e])
    have hc47 : c ≠ 47 := fun e => h47 (by simp [e])
    have hr46 : 46 ∉ rest := fun e => h46 (List.mem_cons_of_mem c e)
    have hr47 : 47 ∉ rest := fun e => h47 (List.mem_cons_of_mem c e)
    simp only [List.cons_append, extLoop, hc46, hc47, if_false, List.append_eq]
    rw [ih b (n + 1) hr46 hr47]
    simp only [List.length_cons]
    omega

/-- A list that holds `x` splits at its last occurrence of `x`. -/
theorem split_at_last (x : Nat) : ∀ (l : Bytes), x ∈ l →
    ∃ pre suf, l = pre ++ x :: suf ∧ x ∉ suf := by
  intro l
  induction l with
  | nil => intro h; cases h
  | cons c rest ih =>
    intro h
    by_cases hr : x ∈ rest
    · obtain ⟨pre, suf, hl, hs⟩ := ih hr
      exact ⟨c :: pre, suf, by simp [hl], hs⟩
    · have hc : c = x := by
        rcases List.mem_cons.mp h with e | e
        · exact e.symm
        · exact absurd e hr
      exact ⟨[], rest, by simp [hc], hr⟩

/-- An id without `.` is forwarded unchanged. -/
theorem stripExt_no_dot (id : Bytes) (h : 46 ∉ id) : SosServer.stripExt id = id := by
  have hrev : 46 ∉ id.reverse := fun e => h (List.mem_reverse.mp e)
  simp [SosServer.stripExt, filepathExt, extLoop_no_dot id.reverse 0 hrev]

/-- An id without `/` is cut at its last `.`. -/
theorem stripExt_split (pre suf : Bytes) (hsuf : 46 ∉ suf) (hseg : 47 ∉ pre ++ 46 :: suf) :
    SosServer.stripExt (pre ++ 46 :: suf) = pre := by
  have h46 : 46 ∉ suf.reverse := fun e => hsuf (List.mem_reverse.mp e)
  have h47 : 47 ∉ suf.reverse := fun e => hseg (by
    simp only [List.mem_append, List.mem_cons]
    exact Or.inr (Or.inr (List.mem_reverse.mp e)))
  have hloop : extLoop (pre ++ 46 :: suf).reverse 0 = suf.length + 1 := by
    rw [List.reverse_append, List.reverse_cons, List.append_assoc]
    have := extLoop_dot suf.reverse (pre.reverse) 0 h46 h47
    simpa using this
  have hext : filepathExt (pre ++ 46 :: suf) = 46 :: suf := by
    unfold filepathExt
    rw [hloop]
    have hl : (pre ++ 46 :: suf).length - (suf.length + 1) = pre.length := by
      simp only [List.length_append, List.length_cons]
      omega
    rw [hl, List.drop_left]
  unfold SosServer.stripExt
  rw [hext]
  have hl : (pre ++ 46 :: suf).length - (46 :: suf).length = pre.length := by
    simp only [List.length_append, List.length_cons]
    omega
  rw [hl, List.take_left]

/-! ## Theorems on the routing proxy -/

namespace SosServer

/-- C6: on the upload path of the proxy every request made is a POST to a
registered node `s`, the nodes being taken in registry order, with URL `s`
followed by `/blob/` and the hexadecimal rendering of the SHA-1 digest of
the request body `b`, and with the whole of `b` as body.  The identifier
is a function of `b` alone, has 40 characters, all of them in `0-9` or
`a-f`, and for `b = "hello"` it is
`aaf4c61ddcc5e8a2dabede0f3b482cd9aea9434d`. -/
theorem upload_is_content_addressed (SERVERS : List Bytes) (net : Transport)
    (res : ResponseWriter) (b : Bytes) :
    (∃ k, k ≤ SERVERS.length ∧
      (UploadHandler SERVERS net res b).sent =
        (SERVERS.take k).map fun s =>
          { method := .POST, url := s ++ ascii "/blob/" ++ hexBytes (sha1Sum b), body := b }) ∧
    (hexBytes (sha1Sum b)).length = 40 ∧
    (∀ c ∈ hexBytes (sha1Sum b),
      ('0'.toNat ≤ c ∧ c ≤ '9'.toNat) ∨ ('a'.toNat ≤ c ∧ c ≤ 'f'.toNat)) ∧
    hexBytes (sha1Sum (ascii "hello")) = ascii "aaf4c61ddcc5e8a2dabede0f3b482cd9aea9434d" ∧
    (UploadHandler [ascii "http://n1:3001"] netDown ResponseWriter.new (ascii "hello")).sent =
      [{ method := .POST,
         url := ascii "http://n1:3001/blob/aaf4c61ddcc5e8a2dabede0f3b482cd9aea9434d",
         body := ascii "hello" }] := by
  refine ⟨?_, ?_, ?_, by decide, by decide⟩
  · obtain ⟨k, hk, hsent⟩ := uploadLoop_sent_prefix net b (sha1Sum b) SERVERS 0 res []
    exact ⟨k, hk, by simpa [UploadHandler, uploadURL] using hsent⟩
  · rw [length_hexBytes, length_sha1Sum]
  · intro c hc
    have h0 : '0'.toNat = 48 := by decide
    have h9 : '9'.toNat = 57 := by decide
    have ha : 'a'.toNat = 97 := by decide
    have hf : 'f'.toNat = 102 := by decide
    rw [h0, h9, ha, hf]
    exact hexBytes_lower _ c hc

/-- C7: both handlers of the proxy contact the nodes one at a time in registry
order and stop at the first call that completes without a transport error.
If the calls to the first `k` nodes fail and the call to node `k`, when
there is one, completes with a response `r` of any status and any body
(an empty one included), the requests made are exactly those to the first
`k + 1` nodes of the registry (to all of them when there is no node `k`),
and what is written to the caller is `fmt.Fprintf(res, r.body)`. -/
theorem failover_stops_at_first_completed_call (SERVERS : List Bytes)
    (netU netD : Transport) (res : ResponseWriter) (b id : Bytes) (k : Nat)
    (r : Response)
    (hU_fail : ∀ i t, i < k → SERVERS[i]? = some t →
      netU i { method := .POST, url := uploadURL t (sha1Sum b), body := b } = none)
    (hU_done : ∀ t, SERVERS[k]? = some t →
      netU k { method := .POST, url := uploadURL t (sha1Sum b), body := b } = some r)
    (hD_fail : ∀ i t, i < k → SERVERS[i]? = some t →
      netD i { method := .GET, url := downloadURL t (stripExt id), body := [] } = none)
    (hD_done : ∀ t, SERVERS[k]? = some t →
      netD k { method := .GET, url := downloadURL t (stripExt id), body := [] } = some r) :
    UploadHandler SERVERS netU res b =
      { res := if k < SERVERS.length then Fprintf res r.body
          else Fprintf res (ascii "Upload FAILED"),
        sent := (SERVERS.take (k + 1)).map fun t =>
          { method := .POST, url := uploadURL t (sha1Sum b), body := b } } ∧
    DownloadHandler SERVERS netD res id =
      { res := if k < SERVERS.length then Fprintf res r.body
          else Fprintf (res.WriteHeader StatusNotFound) (ascii "Object not found."),
        sent := (SERVERS.take (k + 1)).map fun t =>
          { method := .GET, url := downloadURL t (stripExt id), body := [] } } :=
  ⟨uploadLoop_first netU b (sha1Sum b) SERVERS k r res hU_fail hU_done,
    downloadLoop_first netD (stripExt id) SERVERS k r res hD_fail hD_done⟩

/-- C7 at a concrete registry of three nodes of which the first is unreachable
and the second answers with its own 404: the first two nodes are
contacted, the third is not, and the 404 text is what the caller gets. -/
theorem failover_stops_at_first_completed_call_witness :
    UploadHandler [ascii "http://n1", ascii "http://n2", ascii "http://n3"]
        (netAfter 1 { status := 404, body := ascii "404 page not found\n" })
        ResponseWriter.new (ascii "hello") =
      { res := { wroteHeader := true, status := 200, body := ascii "404 page not found\n" },
        sent := [{ method := .POST,
                   url := ascii "http://n1/blob/aaf4c61ddcc5e8a2dabede0f3b482cd9aea9434d",
                   body := ascii "hello" },
                 { method := .POST,
                   url := ascii "http://n2/blob/aaf4c61ddcc5e8a2dabede0f3b482cd9aea9434d",
                   body := ascii "hello" }] } ∧
    DownloadHandler [ascii "http://n1", ascii "http://n2", ascii "http://n3"]
        (netAfter 1 { status := 404, body := ascii "404 page not found\n" })
        ResponseWriter.new (ascii "abc123.jpg") =
      { res := { wroteHeader := true, status := 200, body := ascii "404 page not found\n" },
        sent := [{ method := .GET, url := ascii "http://n1/blob/abc123", body := [] },
                 { method := .GET, url := ascii "http://n2/blob/abc123", body := [] }] } := by
  have h := failover_stops_at_first_completed_call
    [ascii "http://n1", ascii "http://n2", ascii "http://n3"]
    (netAfter 1 { status := 404, body := ascii "404 page not found\n" })
    (netAfter 1 { status := 404, body := ascii "404 page not found\n" })
    ResponseWriter.new (ascii "hello") (ascii "abc123.jpg") 1
    { status := 404, body := ascii "404 page not found\n" }
    (fun i t hi _ => by simp [netAfter, hi])
    (fun t _ => by simp [netAfter])
    (fun i t hi _ => by simp [netAfter, hi])
    (fun t _ => by simp [netAfter])
  exact ⟨h.1.trans (by decide), h.2.trans (by decide)⟩

/-- When the body of the first completed call holds no `%`, it reaches the
caller unchanged, under status 200, on both paths of the proxy. -/
theorem relay_without_pct (SERVERS : List Bytes) (netU netD : Transport) (b id : Bytes)
    (k : Nat) (r : Response) (hk : k < SERVERS.length) (hr : ∀ c ∈ r.body, c ≠ pct)
    (hU_fail : ∀ i t, i < k → SERVERS[i]? = some t →
      netU i { method := .POST, url := uploadURL t (sha1Sum b), body := b } = none)
    (hU_done : ∀ t, SERVERS[k]? = some t →
      netU k { method := .POST, url := uploadURL t (sha1Sum b), body := b } = some r)
    (hD_fail : ∀ i t, i < k → SERVERS[i]? = some t →
      netD i { method := .GET, url := downloadURL t (stripExt id), body := [] } = none)
    (hD_done : ∀ t, SERVERS[k]? = some t →
      netD k { method := .GET, url := downloadURL t (stripExt id), body := [] } = some r) :
    serveUpload SERVERS netU b = { wroteHeader := true, status := 200, body := r.body } ∧
    serveDownload SERVERS netD id = { wroteHeader := true, status := 200, body := r.body } := by
  have hu := uploadLoop_first netU b (sha1Sum b) SERVERS k r ResponseWriter.new hU_fail hU_done
  have hd := downloadLoop_first netD (stripExt id) SERVERS k r ResponseWriter.new
    hD_fail hD_done
  simp only [serveUpload, serveDownload, UploadHandler, DownloadHandler, hu, hd, if_pos hk,
    Fprintf_of_no_pct _ r.body hr, finish_write_new, and_self]

/-- C8 (the code at a failing input): a node that answers with the body `100%`
has `100%!(NOVERB)` relayed to the caller by `UploadHandler` and by
`DownloadHandler`, the body being used as the format string of
`fmt.Fprintf`. -/
theorem relay_rewrites_body_with_pct :
    IsBytes (ascii "100%") ∧
    serveUpload [ascii "http://n1"] (netAfter 0 { status := 200, body := ascii "100%" })
        (ascii "hello") =
      { wroteHeader := true, status := 200, body := ascii "100%!(NOVERB)" } ∧
    serveDownload [ascii "http://n1"] (netAfter 0 { status := 200, body := ascii "100%" })
        (ascii "abc") =
      { wroteHeader := true, status := 200, body := ascii "100%!(NOVERB)" } ∧
    ascii "100%!(NOVERB)" ≠ ascii "100%" := by
  decide

/-- C9: for every registry, the empty one included, on which every call fails at
the transport level, POST /upload is answered with the body
`Upload FAILED` under status 200 (no error status) and GET /fetch/{id}
with status 404 and the body `Object not found.`; in both cases the
requests made are one per registered node, in registry order. -/
theorem all_nodes_unreachable (SERVERS : List Bytes) (netU netD : Transport) (b id : Bytes)
    (hU : ∀ i t, SERVERS[i]? = some t →
      netU i { method := .POST, url := uploadURL t (sha1Sum b), body := b } = none)
    (hD : ∀ i t, SERVERS[i]? = some t →
      netD i { method := .GET, url := downloadURL t (stripExt id), body := [] } = none) :
    serveUpload SERVERS netU b =
      { wroteHeader := true, status := 200, body := ascii "Upload FAILED" } ∧
    (UploadHandler SERVERS netU ResponseWriter.new b).sent =
      SERVERS.map (fun t =>
        { method := .POST, url := uploadURL t (sha1Sum b), body := b }) ∧
    serveDownload SERVERS netD id =
      { wroteHeader := true, status := 404, body := ascii "Object not found." } ∧
    (DownloadHandler SERVERS netD ResponseWriter.new id).sent =
      SERVERS.map (fun t =>
        { method := .GET, url := downloadURL t (stripExt id), body := [] }) := by
  have hnone : SERVERS[SERVERS.length]? = none := List.getElem?_eq_none (le_refl _)
  have hu := uploadLoop_first netU b (sha1Sum b) SERVERS SERVERS.length
    { status := 0, body := [] } ResponseWriter.new (fun i t _ h => hU i t h)
    (fun t h => by rw [hnone] at h; cases h)
  have hd := downloadLoop_first netD (stripExt id) SERVERS SERVERS.length
    { status := 0, body := [] } ResponseWriter.new (fun i t _ h => hD i t h)
    (fun t h => by rw [hnone] at h; cases h)
  have htake : SERVERS.take (SERVERS.length + 1) = SERVERS :=
    List.take_of_length_le (Nat.le_succ _)
  rw [htake] at hu hd
  simp only [Nat.lt_irrefl, if_false] at hu hd
  refine ⟨?_, ?_, ?_, ?_⟩
  · simp only [serveUpload, UploadHandler, hu, (Fprintf_fixed _).1, finish_write_new]
  · simp only [UploadHandler, hu]
  · simp only [serveDownload, DownloadHandler, hd, (Fprintf_fixed _).2]
    simp [ResponseWriter.Write, ResponseWriter.finish, ResponseWriter.WriteHeader,
      ResponseWriter.new, StatusNotFound]
  · simp only [DownloadHandler, hd]

/-- C9 at a registry of two unreachable nodes. -/
theorem all_nodes_unreachable_witness :
    serveUpload [ascii "http://n1", ascii "http://n2"] netDown (ascii "hello") =
      { wroteHeader := true, status := 200, body := ascii "Upload FAILED" } ∧
    ((UploadHandler [ascii "http://n1", ascii "http://n2"] netDown ResponseWriter.new
      (ascii "hello")).sent.map fun rq => rq.url) =
      [ascii "http://n1/blob/aaf4c61ddcc5e8a2dabede0f3b482cd9aea9434d",
       ascii "http://n2/blob/aaf4c61ddcc5e8a2dabede0f3b482cd9aea9434d"] ∧
    serveDownload [ascii "http://n1", ascii "http://n2"] netDown (ascii "abc") =
      { wroteHeader := true, status := 404, body := ascii "Object not found." } ∧
    ((DownloadHandler [ascii "http://n1", ascii "http://n2"] netDown ResponseWriter.new
      (ascii "abc")).sent.map fun rq => rq.url) =
      [ascii "http://n1/blob/abc", ascii "http://n2/blob/abc"] := by
  have h := all_nodes_unreachable [ascii "http://n1", ascii "http://n2"] netDown netDown
    (ascii "hello") (ascii "abc") (fun _ _ _ => rfl) (fun _ _ _ => rfl)
  refine ⟨h.1, ?_, h.2.2.1, ?_⟩
  · rw [h.2.1]
    decide
  · rw [h.2.2.2]
    decide

/-- C10: for every requested id without `/`, the id that `DownloadHandler`
forwards in its GET requests to `<node>/blob/<id>` is the id with
everything from its last `.` onward removed, and the id itself when it
holds no `.`; it is always a prefix of the id.  `abc123.jpg` is forwarded
as `abc123` and `a.b.c` as `a.b`. -/
theorem download_strips_extension (SERVERS : List Bytes) (net : Transport)
    (res : ResponseWriter) (id : Bytes) (hseg : '/'.toNat ∉ id) :
    ('.'.toNat ∉ id → stripExt id = id) ∧
    ('.'.toNat ∈ id → ∃ suf, '.'.toNat ∉ suf ∧ id = stripExt id ++ '.'.toNat :: suf) ∧
    stripExt id <+: id ∧
    (∃ k, k ≤ SERVERS.length ∧
      (DownloadHandler SERVERS net res id).sent =
        (SERVERS.take k).map fun s =>
          { method := .GET, url := s ++ ascii "/blob/" ++ stripExt id, body := [] }) ∧
    stripExt (ascii "abc123.jpg") = ascii "abc123" ∧
    stripExt (ascii "a.b.c") = ascii "a.b" := by
  have hdot : '.'.toNat = 46 := by decide
  have hslash : '/'.toNat = 47 := by decide
  rw [hslash] at hseg
  rw [hdot]
  refine ⟨stripExt_no_dot id, ?_, ?_, ?_, by decide, by decide⟩
  · intro hmem
    obtain ⟨pre, suf, hid, hsuf⟩ := split_at_last 46 id hmem
    refine ⟨suf, hsuf, ?_⟩
    have hstrip : stripExt (pre ++ 46 :: suf) = pre :=
      stripExt_split pre suf hsuf (by rw [← hid]; exact hseg)
    rw [hid, hstrip]
  · exact List.take_prefix _ id
  · obtain ⟨k, hk, hsent⟩ := downloadLoop_sent_prefix net (stripExt id) SERVERS 0 res []
    exact ⟨k, hk, by simpa [DownloadHandler, downloadURL] using hsent⟩

/-- C10 at the request /fetch/abc123.jpg with one reachable node: the node is
asked for /blob/abc123. -/
theorem download_strips_extension_witness :
    '/'.toNat ∉ ascii "abc123.jpg" ∧
    stripExt (ascii "abc123.jpg") <+: ascii "abc123.jpg" ∧
    (∃ suf, '.'.toNat ∉ suf ∧
      ascii "abc123.jpg" = stripExt (ascii "abc123.jpg") ++ '.'.toNat :: suf) ∧
    (DownloadHandler [ascii "http://n1"] (netAfter 0 { status := 200, body := ascii "data" })
      ResponseWriter.new (ascii "abc123.jpg")).sent =
      [{ method := .GET, url := ascii "http://n1/blob/abc123", body := [] }] := by
  have h := download_strips_extension [ascii "http://n1"]
    (netAfter 0 { status := 200, body := ascii "data" }) ResponseWriter.new
    (ascii "abc123.jpg") (by decide)
  exact ⟨by decide, h.2.2.1, h.2.1 (by decide), by decide⟩

end SosServer

end Sos
